import Mathlib

/-!
A shallow embedding of the caching/curation core of the backtest_frame_v2
repository: the content fingerprint and partitioned parquet store
(engine/storage.py), the cache validity check (engine/data_fetcher.py),
the point-in-time aligner (engine/aligner.py), and the composite quality
score (scripts/generate_high_quality_universe.py), together with theorems
settling the specification claims about them.

Modelling conventions:
* pandas timestamps are civil dates; day arithmetic (`timedelta.days`) is the
  difference of day numbers computed by `daysFromCivil` (Hinnant's
  days-from-civil algorithm without the epoch shift, adequate for years >= 1).
* a DataFrame cell is an integer, a frame is its column count together with
  its list of (date-index, cells) rows; parquet round-trips content exactly.
* `pd.util.hash_pandas_object(df, index=True)` yields one hash per row that
  depends on the row's index value and its cells; the md5 digest is then
  taken over the array of per-row hashes in row order.  Hashes are modelled
  as perfect (injective): the per-row hash of a row is the row itself, and
  the digest of the array is the list of per-row hashes in row order.
* the filesystem is an association list from paths (lists of path
  components) to frames; reading a stored partition returns exactly the
  frame that was written.
-/

namespace BF

/-- Civil date (year, month, day): the model of a pandas timestamp. -/
structure Date where
  y : Nat
  m : Nat
  d : Nat
deriving DecidableEq

/-- Day number of a civil date (Hinnant's days-from-civil algorithm, without
the 1970 epoch shift; monotone in the calendar order for years >= 1).  Used to
model `(a - b).days` on pandas timestamps as `daysFromCivil a - daysFromCivil b`. -/
def daysFromCivil (dt : Date) : Nat :=
  let y := if dt.m ≤ 2 then dt.y - 1 else dt.y
  let era := y / 400
  let yoe := y - era * 400
  let mp := if dt.m ≤ 2 then dt.m + 9 else dt.m - 3
  let doy := (153 * mp + 2) / 5 + (dt.d - 1)
  let doe := yoe * 365 + yoe / 4 - yoe / 100 + doy
  era * 146097 + doe

/-- Cell values of one DataFrame row. -/
abbrev Cells := List Int

/-- One stored row: the date index entry together with the cell values. -/
abbrev Row := Date × Cells

/-- A date-indexed DataFrame: column count and rows in in-memory order. -/
structure Frame where
  ncols : Nat
  rows : List Row
deriving DecidableEq

/-- The empty `pd.DataFrame()` returned by the cache check on a miss. -/
def emptyFrame : Frame := ⟨0, []⟩

/-- Model of `_hash_df` (engine/storage.py, lines 5-15): the fingerprint is
`f"{len(df)}_{len(df.columns)}_{md5(hash_pandas_object(df, index=True)).hexdigest()[:6]}"`,
i.e. the triple (row count, column count, digest of the per-row hashes in row
order).  `hash_pandas_object(df, index=True)` hashes each row together with
its index value, and the md5 runs over the resulting array in row order, so
the digest component is modelled as the list of (index, cells) rows in
in-memory order; no sorting of any kind is applied before hashing. -/
def hash_df (df : Frame) : Nat × Nat × List Row :=
  (df.rows.length, df.ncols, df.rows)

/-- A filesystem path, as its list of components. -/
abbrev Path := List String

/-- The filesystem: an association list from paths to stored frames
(later entries are shadowed by `setFS`, which prepends). -/
abbrev FS := List (Path × Frame)

/-- Look up the frame stored at a path. -/
def lookupFS (fs : FS) (p : Path) : Option Frame :=
  match fs with
  | [] => none
  | (q, f) :: rest => if q = p then some f else lookupFS rest p

/-- Store a frame at a path (overwriting whatever was visible there). -/
def setFS (fs : FS) (p : Path) (f : Frame) : FS := (p, f) :: fs

/-- Filesystem side effects performed by the store. -/
inductive FsEvent where
  | mkdirs (p : Path)
  | readFile (p : Path)
  | writeFile (p : Path) (content : Frame)
deriving DecidableEq

/-- Outcome of a store write: a physical write happened, or it was skipped
because the fingerprints matched. -/
inductive WriteOutcome where
  | written
  | skipped
deriving DecidableEq

/-- Target path of `to_parquet_partition` (engine/storage.py, lines 28-32):
`base_dir/data/processed/YYYY/MM/name.parquet`, with the year and month taken
from `df.index[-1].strftime("%Y/%m")` (the two strftime components are
modelled as two path components). -/
def partPath (base name : String) (dt : Date) : Path :=
  [base, "data", "processed", toString dt.y, toString dt.m, name ++ ".parquet"]

/-- Path read by `_check_existing_data` (engine/data_fetcher.py, line 46):
`base_dir/data/processed/{ts_code}.parquet`. -/
def flatPath (base name : String) : Path :=
  [base, "data", "processed", name ++ ".parquet"]

/-- Model of `to_parquet_partition` (engine/storage.py, lines 17-36).
`none` models the IndexError raised by `df.index[-1]` on an empty frame,
before any directory creation or write.  Otherwise the directory is created
(`os.makedirs(..., exist_ok=True)`), and if a file already exists at the
target path it is read back and its fingerprint compared with the incoming
frame's: on a match the function returns with no write; otherwise
`pq.write_table` overwrites the target path directly. -/
def to_parquet_partition (df : Frame) (base name : String) (fs : FS) :
    Option (FS × List FsEvent × WriteOutcome) :=
  match df.rows.getLast? with
  | none => none
  | some r =>
    let p := partPath base name r.1
    match lookupFS fs p with
    | some old =>
      if hash_df old = hash_df df then
        some (fs, [FsEvent.mkdirs p.dropLast, FsEvent.readFile p], WriteOutcome.skipped)
      else
        some (setFS fs p df,
          [FsEvent.mkdirs p.dropLast, FsEvent.readFile p, FsEvent.writeFile p df],
          WriteOutcome.written)
    | none =>
      some (setFS fs p df,
        [FsEvent.mkdirs p.dropLast, FsEvent.writeFile p df], WriteOutcome.written)

/-- Contents visible at the target path while `pq.write_table` rewrites the
file in place: the call opens the target for writing (truncating it) and
streams the table out, so a concurrent reader (or a reader after a mid-write
failure) can observe any prefix of the new rows. -/
def writeTableStates (df : Frame) : List Frame :=
  (List.range (df.rows.length + 1)).map fun k => ⟨df.ncols, df.rows.take k⟩

/-- Intermediate contents visible at the target path during a call of
`to_parquet_partition`: empty when the call raises or skips, and the in-place
rewrite states of `pq.write_table` when a physical write happens. -/
def to_parquet_partition_states (df : Frame) (base name : String) (fs : FS) : List Frame :=
  match df.rows.getLast? with
  | none => []
  | some r =>
    match lookupFS fs (partPath base name r.1) with
    | some old => if hash_df old = hash_df df then [] else writeTableStates df
    | none => writeTableStates df

/-- Smallest day number in the frame's index (`existing_df.index.min()`);
zero on an empty frame (the source guards against that case first). -/
def minIndexDays (df : Frame) : Nat :=
  match df.rows.map (fun r => daysFromCivil r.1) with
  | [] => 0
  | x :: xs => xs.foldl min x

/-- Largest day number in the frame's index (`existing_df.index.max()`). -/
def maxIndexDays (df : Frame) : Nat :=
  match df.rows.map (fun r => daysFromCivil r.1) with
  | [] => 0
  | x :: xs => xs.foldl max x

/-- Rows of the frame whose index date lies in the inclusive day-number window
`[lo, hi]` (the boolean mask `(index >= actual_start) & (index <= actual_end)`). -/
def filterRange (df : Frame) (lo hi : Int) : Frame :=
  ⟨df.ncols, df.rows.filter fun r =>
    decide (lo ≤ (daysFromCivil r.1 : Int)) && decide ((daysFromCivil r.1 : Int) ≤ hi)⟩

/-- Model of the body of `_check_existing_data` once the existing frame has
been read (engine/data_fetcher.py, lines 52-115).  The requested start is
`none` for "all history"; `endDate` is the requested end (the caller
substitutes today when it was omitted).  In the source, when the guard
`start_ok and end_ok` fails, the lines that follow still execute (only
`actual_start = ...` is inside the `if` block) and reference the undefined
local `actual_start`; the resulting NameError is caught by the surrounding
`try/except`, which returns an empty frame — that path is therefore modelled
as returning the empty frame directly. -/
def check_existing_data_core (df : Frame) (start? : Option Date) (endDate : Date) : Frame :=
  if df.rows = [] then emptyFrame
  else
    let endD : Int := daysFromCivil endDate
    let dataStart : Int := minIndexDays df
    let dataEnd : Int := maxIndexDays df
    match start? with
    | none => if endD - dataEnd ≤ 1 then df else emptyFrame
    | some s =>
      let start_gap := dataStart - (daysFromCivil s : Int)
      let end_gap := endD - dataEnd
      if start_gap ≤ 5 ∧ end_gap ≤ 1 then
        let actual_start := max (daysFromCivil s : Int) dataStart
        let actual_end := min endD dataEnd
        let filtered := filterRange df actual_start actual_end
        if filtered.rows.length ≥ 100 then filtered else emptyFrame
      else emptyFrame

/-- Model of `_check_existing_data` (engine/data_fetcher.py, lines 30-115):
read the flat per-instrument path under `data/processed`; a missing file
yields an empty frame (MISSING), otherwise the decision runs on the frame
read back. -/
def check_existing_data (fs : FS) (base name : String) (start? : Option Date)
    (endDate : Date) : Frame :=
  match lookupFS fs (flatPath base name) with
  | none => emptyFrame
  | some df => check_existing_data_core df start? endDate

/-- Sub-frame restricted to the overlap window
`[max(requested_start, existing_min), min(requested_end, existing_max)]`,
the frame a cache HIT returns. -/
def overlapFiltered (df : Frame) (s endDate : Date) : Frame :=
  filterRange df (max (daysFromCivil s : Int) (minIndexDays df : Int))
    (min (daysFromCivil endDate : Int) (maxIndexDays df : Int))

/-- Apply a sequence of partitioned writes (frame, base dir, instrument name)
to a filesystem; a write that raises leaves the filesystem unchanged. -/
def applyPartitionedWrites (ops : List (Frame × String × String)) (fs : FS) : FS :=
  ops.foldl (fun acc op =>
    match to_parquet_partition op.1 op.2.1 op.2.2 acc with
    | some (fs2, _, _) => fs2
    | none => acc) fs

theorem lookupFS_setFS_self (fs : FS) (p : Path) (f : Frame) :
    lookupFS (setFS fs p f) p = some f := by
  simp [lookupFS, setFS]

/-- Consecutive valid civil dates of one month, sharing a single cell value:
a building block for concrete cached frames. -/
def monthRows (y m d1 d2 : Nat) : List Row :=
  (List.range (d2 + 1 - d1)).map fun k => (⟨y, m, d1 + k⟩, [(0 : Int)])

/-- Concrete cached frame for Scenario C: 120 trading-day rows, the earliest
at 2020-01-03 and the latest at 2023-12-29. -/
def scenarioCFrame : Frame :=
  ⟨1, monthRows 2020 1 3 31 ++ monthRows 2020 2 1 29 ++ monthRows 2020 3 1 31 ++
      monthRows 2020 4 1 30 ++ [(⟨2023, 12, 29⟩, [0])]⟩


/-- Claim C1: for a cache check with `requested_start` given and cached data
present, the check returns HIT (the sub-frame filtered to the overlap window)
iff `start_gap = existing_min - requested_start <= 5` and
`end_gap = requested_end - existing_max <= 1` and the filtered row count is
`>= 100`; otherwise it returns the empty frame (STALE/MISSING). -/
theorem cache_check_hit_iff (df : Frame) (s endDate : Date) (hne : df.rows ≠ []) :
    (check_existing_data_core df (some s) endDate ≠ emptyFrame ↔
      ((minIndexDays df : Int) - daysFromCivil s ≤ 5 ∧
       (daysFromCivil endDate : Int) - maxIndexDays df ≤ 1 ∧
       (overlapFiltered df s endDate).rows.length ≥ 100)) ∧
    (((minIndexDays df : Int) - daysFromCivil s ≤ 5 ∧
      (daysFromCivil endDate : Int) - maxIndexDays df ≤ 1 ∧
      (overlapFiltered df s endDate).rows.length ≥ 100) →
      check_existing_data_core df (some s) endDate = overlapFiltered df s endDate) := by
  simp only [check_existing_data_core, overlapFiltered, if_neg hne]
  split_ifs with hgap hlen
  · have hflne : filterRange df (max (daysFromCivil s : Int) (minIndexDays df : Int))
        (min (daysFromCivil endDate : Int) (maxIndexDays df : Int)) ≠ emptyFrame := by
      intro h
      rw [h] at hlen
      simp [emptyFrame] at hlen
    exact ⟨by simp [hflne, hgap.1, hgap.2, hlen], fun _ => rfl⟩
  · refine ⟨by simp only [ne_eq, not_true_eq_false, false_iff]; exact fun h => hlen h.2.2, ?_⟩
    exact fun h => absurd h.2.2 hlen
  · refine ⟨by simp only [ne_eq, not_true_eq_false, false_iff]; exact fun h => hgap ⟨h.1, h.2.1⟩, ?_⟩
    exact fun h => absurd ⟨h.1, h.2.1⟩ hgap


/-- Witness for C1 at a concrete one-row cached frame (row count below
`min_rows`, so the check returns the empty frame). -/
theorem cache_check_hit_iff_witness :
    check_existing_data_core ⟨1, [(⟨2020, 1, 3⟩, [5])]⟩ (some ⟨2020, 1, 1⟩) ⟨2020, 2, 1⟩ =
      emptyFrame := by
  have h := (cache_check_hit_iff ⟨1, [(⟨2020, 1, 3⟩, [5])]⟩ ⟨2020, 1, 1⟩ ⟨2020, 2, 1⟩
    (by decide)).1
  by_contra hc
  exact absurd (h.mp hc) (by decide)

set_option maxRecDepth 40000 in
/-- Claim C7, counterexample: on the concrete Scenario C input (requested
2020-01-01..2024-01-01, cached 2020-01-03..2023-12-29, over 100 overlap
rows) the gaps are 2 and 3 days, and the check returns the EMPTY frame
(STALE) — not HIT as the claim states, because `end_gap = 3 > 1`. -/
theorem scenarioC_hit_claim_false :
    ((minIndexDays scenarioCFrame : Int) - daysFromCivil ⟨2020, 1, 1⟩ = 2) ∧
    ((daysFromCivil ⟨2024, 1, 1⟩ : Int) - maxIndexDays scenarioCFrame = 3) ∧
    (overlapFiltered scenarioCFrame ⟨2020, 1, 1⟩ ⟨2024, 1, 1⟩).rows.length ≥ 100 ∧
    check_existing_data_core scenarioCFrame (some ⟨2020, 1, 1⟩) ⟨2024, 1, 1⟩ = emptyFrame := by
  decide

/-- Claim C7, amended: for every cached frame spanning exactly
2020-01-03..2023-12-29, the check for requested 2020-01-01..2024-01-01
returns the empty frame (STALE): the end gap of 3 days exceeds
`end_tolerance_days = 1`. -/
theorem scenarioC_stale_of_range (df : Frame) (hne : df.rows ≠ [])
    (hmin : minIndexDays df = daysFromCivil ⟨2020, 1, 3⟩)
    (hmax : maxIndexDays df = daysFromCivil ⟨2023, 12, 29⟩) :
    check_existing_data_core df (some ⟨2020, 1, 1⟩) ⟨2024, 1, 1⟩ = emptyFrame := by
  simp only [check_existing_data_core, if_neg hne, hmin, hmax]
  rw [if_neg (by decide)]

set_option maxRecDepth 40000 in
/-- Witness for the amended C7 at the concrete Scenario C frame. -/
theorem scenarioC_stale_of_range_witness :
    check_existing_data_core scenarioCFrame (some ⟨2020, 1, 1⟩) ⟨2024, 1, 1⟩ = emptyFrame :=
  scenarioC_stale_of_range scenarioCFrame (by decide) (by decide) (by decide)

/-- Claim C10: `to_parquet_partition` raises (IndexError on `df.index[-1]`)
exactly on frames with zero rows, before any directory creation or write, so
the store is left unchanged. -/
theorem write_empty_frame_raises (df : Frame) (base name : String) (fs : FS) :
    to_parquet_partition df base name fs = none ↔ df.rows = [] := by
  unfold to_parquet_partition
  cases hlast : df.rows.getLast? with
  | none => simp [List.getLast?_eq_none_iff.mp hlast]
  | some r =>
    have hne : df.rows ≠ [] := by
      intro h0
      rw [h0] at hlast
      simp at hlast
    cases hfs : lookupFS fs (partPath base name r.1) with
    | none => simp [hfs, hne]
    | some old =>
      simp only [hfs]
      split_ifs <;> simp [hne]


/-- Claim C4: if the partition at the target path already holds content
with the same fingerprint as the incoming frame, the write performs no
physical write and leaves the filesystem unchanged (outcome SKIPPED); and
after any successful write, immediately re-writing the same frame is a
skipped no-op whose event trace contains no file write. -/
theorem write_idempotent :
    (∀ (df : Frame) (base name : String) (fs : FS) (r : Row) (old : Frame),
      df.rows.getLast? = some r →
      lookupFS fs (partPath base name r.1) = some old →
      hash_df old = hash_df df →
      to_parquet_partition df base name fs =
        some (fs, [FsEvent.mkdirs (partPath base name r.1).dropLast,
                   FsEvent.readFile (partPath base name r.1)], WriteOutcome.skipped)) ∧
    (∀ (df : Frame) (base name : String) (fs fs1 : FS) (ev : List FsEvent) (oc : WriteOutcome),
      to_parquet_partition df base name fs = some (fs1, ev, oc) →
      ∃ ev2, to_parquet_partition df base name fs1 = some (fs1, ev2, WriteOutcome.skipped) ∧
        ∀ e ∈ ev2, ∀ p c, e ≠ FsEvent.writeFile p c) := by
  constructor
  · intro df base name fs r old hlast hold hh
    unfold to_parquet_partition
    rw [hlast]
    simp only [hold]
    rw [if_pos hh]
  · intro df base name fs fs1 ev oc h
    unfold to_parquet_partition at h ⊢
    cases hlast : df.rows.getLast? with
    | none =>
      rw [hlast] at h
      exact absurd h (by simp)
    | some r =>
      rw [hlast] at h
      cases hfs : lookupFS fs (partPath base name r.1) with
      | some old =>
        simp only [hfs] at h
        by_cases hh : hash_df old = hash_df df
        · rw [if_pos hh] at h
          simp only [Option.some.injEq, Prod.mk.injEq] at h
          obtain ⟨h1, _, _⟩ := h
          subst h1
          simp only [hfs]
          rw [if_pos hh]
          refine ⟨_, rfl, ?_⟩
          intro e he p c
          simp only [List.mem_cons, List.not_mem_nil, or_false] at he
          rcases he with h | h <;> subst h <;> intro hx <;> cases hx
        · rw [if_neg hh] at h
          simp only [Option.some.injEq, Prod.mk.injEq] at h
          obtain ⟨h1, _, _⟩ := h
          subst h1
          simp only [lookupFS_setFS_self, if_true]
          refine ⟨_, rfl, ?_⟩
          intro e he p c
          simp only [List.mem_cons, List.not_mem_nil, or_false] at he
          rcases he with h | h <;> subst h <;> intro hx <;> cases hx
      | none =>
        simp only [hfs] at h
        simp only [Option.some.injEq, Prod.mk.injEq] at h
        obtain ⟨h1, _, _⟩ := h
        subst h1
        simp only [lookupFS_setFS_self, if_true]
        refine ⟨_, rfl, ?_⟩
        intro e he p c
        simp only [List.mem_cons, List.not_mem_nil, or_false] at he
        rcases he with h | h <;> subst h <;> intro hx <;> cases hx

def c4Frame : Frame := ⟨1, [(⟨2024, 1, 5⟩, [10])]⟩

def c4FS : FS := setFS [] (partPath "b" "n" ⟨2024, 1, 5⟩) c4Frame

/-- Witness for C4: writing a frame over an identical stored copy skips. -/
theorem write_idempotent_witness :
    to_parquet_partition c4Frame "b" "n" c4FS =
      some (c4FS, [FsEvent.mkdirs (partPath "b" "n" ⟨2024, 1, 5⟩).dropLast,
                   FsEvent.readFile (partPath "b" "n" ⟨2024, 1, 5⟩)], WriteOutcome.skipped) :=
  write_idempotent.1 c4Frame "b" "n" c4FS (⟨2024, 1, 5⟩, [10]) c4Frame (by decide) (by decide)
    (by decide)


def c6Old : Frame := ⟨1, [(⟨2024, 1, 5⟩, [10])]⟩

def c6New : Frame := ⟨1, [(⟨2024, 1, 5⟩, [20]), (⟨2024, 2, 2⟩, [30])]⟩

def c6FS : FS := setFS [] (partPath "b" "n" ⟨2024, 2, 2⟩) c6Old

/-- Claim C6, counterexample: replacing a stored one-row partition with a
two-row frame of a different fingerprint passes through a visible
intermediate state (the truncated empty file) that is neither the old nor
the new content — the previously stored content is not intact mid-write. -/
theorem overwrite_not_atomic_cex :
    lookupFS c6FS (partPath "b" "n" ⟨2024, 2, 2⟩) = some c6Old ∧
    (⟨1, []⟩ : Frame) ∈ to_parquet_partition_states c6New "b" "n" c6FS ∧
    (⟨1, []⟩ : Frame) ≠ c6Old ∧ (⟨1, []⟩ : Frame) ≠ c6New := by decide

/-- Claim C6, amended: when the fingerprints differ, the overwrite happens
in place at the partition path (a direct write event to the final path, no
temp-file-and-rename): the visible content passes through every prefix of
the new rows, and in particular the empty truncated file is visible, so the
old content is destroyed at the first step and a mid-write failure leaves a
partial partition. -/
theorem overwrite_in_place (df : Frame) (base name : String) (fs : FS) (r : Row) (old : Frame)
    (hlast : df.rows.getLast? = some r)
    (hold : lookupFS fs (partPath base name r.1) = some old)
    (hhash : hash_df old ≠ hash_df df) :
    to_parquet_partition_states df base name fs = writeTableStates df ∧
    (⟨df.ncols, []⟩ : Frame) ∈ to_parquet_partition_states df base name fs ∧
    to_parquet_partition df base name fs =
      some (setFS fs (partPath base name r.1) df,
        [FsEvent.mkdirs (partPath base name r.1).dropLast,
         FsEvent.readFile (partPath base name r.1),
         FsEvent.writeFile (partPath base name r.1) df], WriteOutcome.written) := by
  have hstates : to_parquet_partition_states df base name fs = writeTableStates df := by
    unfold to_parquet_partition_states
    rw [hlast]
    simp only [hold]
    rw [if_neg hhash]
  refine ⟨hstates, ?_, ?_⟩
  · rw [hstates]
    unfold writeTableStates
    exact List.mem_map.mpr ⟨0, List.mem_range.mpr (Nat.succ_pos _), by simp⟩
  · unfold to_parquet_partition
    rw [hlast]
    simp only [hold]
    rw [if_neg hhash]

/-- Witness for the amended C6 at the concrete frames of the counterexample. -/
theorem overwrite_in_place_witness :
    to_parquet_partition_states c6New "b" "n" c6FS = writeTableStates c6New ∧
    (⟨c6New.ncols, []⟩ : Frame) ∈ to_parquet_partition_states c6New "b" "n" c6FS ∧
    to_parquet_partition c6New "b" "n" c6FS =
      some (setFS c6FS (partPath "b" "n" ⟨2024, 2, 2⟩) c6New,
        [FsEvent.mkdirs (partPath "b" "n" ⟨2024, 2, 2⟩).dropLast,
         FsEvent.readFile (partPath "b" "n" ⟨2024, 2, 2⟩),
         FsEvent.writeFile (partPath "b" "n" ⟨2024, 2, 2⟩) c6New], WriteOutcome.written) :=
  overwrite_in_place c6New "b" "n" c6FS (⟨2024, 2, 2⟩, [30]) c6Old (by decide) (by decide)
    (by decide)

def c3FrameA : Frame := ⟨1, [(⟨2024, 1, 2⟩, [10]), (⟨2024, 1, 3⟩, [20])]⟩

def c3FrameB : Frame := ⟨1, [(⟨2024, 1, 3⟩, [20]), (⟨2024, 1, 2⟩, [10])]⟩

/-- Claim C3, counterexample: two frames with identical content (their row
lists are permutations) but different in-memory row order have different
fingerprints — `_hash_df` applies no canonical sort. -/
theorem fingerprint_order_cex :
    List.Perm c3FrameA.rows c3FrameB.rows ∧ c3FrameA.ncols = c3FrameB.ncols ∧
    hash_df c3FrameA ≠ hash_df c3FrameB := by decide

/-- Claim C3, amended: with hashes modelled as injective, two frames have
equal fingerprints exactly when they have the same column count and the same
rows in the same order; the fingerprint is deterministic but row-order
sensitive. -/
theorem fingerprint_eq_iff_content_eq (f g : Frame) :
    hash_df f = hash_df g ↔ f.ncols = g.ncols ∧ f.rows = g.rows := by
  unfold hash_df
  simp only [Prod.mk.injEq]
  constructor
  · rintro ⟨-, h2, h3⟩
    exact ⟨h2, h3⟩
  · rintro ⟨h1, h2⟩
    exact ⟨by rw [h2], h1, h2⟩


theorem keys_length_of_write {df : Frame} {base name : String} {fs fs2 : FS}
    {ev : List FsEvent} {oc : WriteOutcome}
    (h : to_parquet_partition df base name fs = some (fs2, ev, oc))
    (hfs : ∀ e ∈ fs, (e.1 : Path).length = 6) :
    ∀ e ∈ fs2, (e.1 : Path).length = 6 := by
  unfold to_parquet_partition at h
  cases hlast : df.rows.getLast? with
  | none =>
    rw [hlast] at h
    exact absurd h (by simp)
  | some r =>
    rw [hlast] at h
    cases hlook : lookupFS fs (partPath base name r.1) with
    | some old =>
      simp only [hlook] at h
      split_ifs at h with hh <;>
        simp only [Option.some.injEq, Prod.mk.injEq] at h <;> obtain ⟨h1, -, -⟩ := h
      · exact h1 ▸ hfs
      · rw [← h1]
        intro e he
        rcases List.mem_cons.mp he with h | h
        · rw [h]
          simp [partPath]
        · exact hfs e h
    | none =>
      simp only [hlook, Option.some.injEq, Prod.mk.injEq] at h
      obtain ⟨h1, -, -⟩ := h
      rw [← h1]
      intro e he
      rcases List.mem_cons.mp he with h | h
      · rw [h]
        simp [partPath]
      · exact hfs e h

theorem keys_length_applyWrites (ops : List (Frame × String × String)) (fs : FS)
    (hfs : ∀ e ∈ fs, (e.1 : Path).length = 6) :
    ∀ e ∈ applyPartitionedWrites ops fs, (e.1 : Path).length = 6 := by
  induction ops generalizing fs with
  | nil => exact hfs
  | cons op rest ih =>
    simp only [applyPartitionedWrites, List.foldl_cons]
    cases h : to_parquet_partition op.1 op.2.1 op.2.2 fs with
    | none => exact ih fs hfs
    | some res =>
      obtain ⟨fs2, ev, oc⟩ := res
      exact ih fs2 (keys_length_of_write h hfs)

theorem lookupFS_eq_none_of_len (fs : FS) (q : Path)
    (hfs : ∀ e ∈ fs, (e.1 : Path).length = 6) (hq : q.length = 4) :
    lookupFS fs q = none := by
  induction fs with
  | nil => rfl
  | cons e rest ih =>
    have hne : e.1 ≠ q := by
      intro h
      have := hfs e (List.mem_cons_self e rest)
      rw [h, hq] at this
      exact absurd this (by decide)
    simp only [lookupFS]
    rw [if_neg hne]
    exact ih fun x hx => hfs x (List.mem_cons_of_mem e hx)

/-- Claim C8: the partitioned write path (year/month subdirectory from the
frame last date) never equals the flat path the cache check reads, and for
every instrument persisted only through `to_parquet_partition` (any sequence
of writes starting from an empty store) a subsequent cache check finds no
data and returns the empty frame (MISSING). -/
theorem partition_scheme_mismatch :
    (∀ (base name : String) (dt : Date), partPath base name dt ≠ flatPath base name) ∧
    (∀ (ops : List (Frame × String × String)) (base name : String)
       (start? : Option Date) (endDate : Date),
      check_existing_data (applyPartitionedWrites ops []) base name start? endDate = emptyFrame) := by
  constructor
  · intro base name dt h
    have := congrArg List.length h
    simp [partPath, flatPath] at this
  · intro ops base name start? endDate
    unfold check_existing_data
    rw [lookupFS_eq_none_of_len _ _ (keys_length_applyWrites ops [] (by simp)) (by simp [flatPath])]


/-- Per-instrument quality metrics (the dict built by
`_calculate_quality_metrics`, scripts/generate_high_quality_universe.py,
lines 124-162), restricted to the fields the scoring reads.  Rates are exact
rationals (Python floats idealised as rationals). -/
structure QualityMetrics where
  coverage_rate : ℚ
  close_completeness : ℚ
  vol_completeness : ℚ
  amount_completeness : ℚ
  max_gap_days : ℕ
  days_since_last_update : ℤ

/-- Round to the nearest integer, ties to the even integer (the tie rule of
Python's `round`). -/
def roundHalfEven (q : ℚ) : ℤ :=
  if q - ⌊q⌋ < 1 / 2 then ⌊q⌋
  else if 1 / 2 < q - ⌊q⌋ then ⌊q⌋ + 1
  else if Even ⌊q⌋ then ⌊q⌋ else ⌊q⌋ + 1

/-- Model of Python's `round(x, 2)` on exact values. -/
def round2 (q : ℚ) : ℚ := (roundHalfEven (q * 100) : ℚ) / 100

/-- `coverage_score = min(metrics['coverage_rate'] * 100, 100)` (line 178). -/
def coverage_score (m : QualityMetrics) : ℚ := min (m.coverage_rate * 100) 100

/-- `close_score = metrics['close_completeness'] * 100` (line 179). -/
def close_score (m : QualityMetrics) : ℚ := m.close_completeness * 100

/-- `vol_score = metrics['vol_completeness'] * 100` (line 180). -/
def vol_score (m : QualityMetrics) : ℚ := m.vol_completeness * 100

/-- `amount_score = metrics['amount_completeness'] * 100` (line 181). -/
def amount_score (m : QualityMetrics) : ℚ := m.amount_completeness * 100

/-- Continuity tier from `max_gap_days` (lines 184-191). -/
def continuity_score (m : QualityMetrics) : ℚ :=
  if m.max_gap_days = 0 then 100
  else if m.max_gap_days ≤ 7 then 80
  else if m.max_gap_days ≤ 30 then 60
  else max 0 (60 - (m.max_gap_days : ℚ))

/-- Freshness tier from `days_since_last_update` (lines 194-201). -/
def freshness_score (m : QualityMetrics) : ℚ :=
  if m.days_since_last_update ≤ 3 then 100
  else if m.days_since_last_update ≤ 7 then 80
  else if m.days_since_last_update ≤ 30 then 60
  else max 0 (60 - (m.days_since_last_update : ℚ))

/-- The weighted sum of lines 204-211: each sub-score times its weight from
the `weights` table of lines 168-175. -/
def weightedTotal (cov cl vol amt cont fresh : ℚ) : ℚ :=
  cov * 0.3 + cl * 0.25 + vol * 0.15 + amt * 0.15 + cont * 0.1 + fresh * 0.05

/-- Model of `_calculate_quality_score` (lines 164-213): weighted total of the
six sub-scores, rounded to two decimals. -/
def calculate_quality_score (m : QualityMetrics) : ℚ :=
  round2 (weightedTotal (coverage_score m) (close_score m) (vol_score m) (amount_score m)
    (continuity_score m) (freshness_score m))

/-- Modelled from the spec: the reference composite score exactly as the
specification words it — `coverage_score = min(coverage_rate*100, 100)`, each
completeness score the fraction times 100, the continuity and freshness tiers,
and `composite = 0.30*coverage + 0.25*close + 0.15*vol + 0.15*amount +
0.10*continuity + 0.05*freshness`, rounded to two decimals. -/
def referenceQualityScore (m : QualityMetrics) : ℚ :=
  let coverage := min (m.coverage_rate * 100) 100
  let close := m.close_completeness * 100
  let vol := m.vol_completeness * 100
  let amount := m.amount_completeness * 100
  let continuity : ℚ :=
    if m.max_gap_days = 0 then 100
    else if m.max_gap_days ≤ 7 then 80
    else if m.max_gap_days ≤ 30 then 60
    else max 0 (60 - (m.max_gap_days : ℚ))
  let freshness : ℚ :=
    if m.days_since_last_update ≤ 3 then 100
    else if m.days_since_last_update ≤ 7 then 80
    else if m.days_since_last_update ≤ 30 then 60
    else max 0 (60 - (m.days_since_last_update : ℚ))
  round2 (0.30 * coverage + 0.25 * close + 0.15 * vol + 0.15 * amount +
    0.10 * continuity + 0.05 * freshness)

/-- Claim C5: the composite quality score computed by
`_calculate_quality_score` equals the reference definition from the
specification — `min(coverage_rate*100, 100)`, completeness fractions times
100, the continuity and freshness tiers, weighted
0.30/0.25/0.15/0.15/0.10/0.05 and rounded to two decimals. -/
theorem quality_score_matches_spec (m : QualityMetrics) :
    calculate_quality_score m = referenceQualityScore m := by
  unfold calculate_quality_score referenceQualityScore weightedTotal coverage_score
    close_score vol_score amount_score continuity_score freshness_score
  exact congrArg round2 (by ring)

theorem roundHalfEven_mono {a b : ℚ} (h : a ≤ b) : roundHalfEven a ≤ roundHalfEven b := by
  have hfl : ⌊a⌋ ≤ ⌊b⌋ := Int.floor_mono h
  rcases lt_or_eq_of_le hfl with hlt | heq
  · have ha1 : roundHalfEven a = ⌊a⌋ ∨ roundHalfEven a = ⌊a⌋ + 1 := by
      unfold roundHalfEven
      split_ifs <;> simp
    have hb1 : roundHalfEven b = ⌊b⌋ ∨ roundHalfEven b = ⌊b⌋ + 1 := by
      unfold roundHalfEven
      split_ifs <;> simp
    rcases ha1 with h1 | h1 <;> rcases hb1 with h2 | h2 <;> omega
  · unfold roundHalfEven
    rw [← heq]
    have hr : a - (⌊a⌋ : ℚ) ≤ b - (⌊a⌋ : ℚ) := by linarith
    split_ifs <;> first | omega | linarith

theorem round2_mono {a b : ℚ} (h : a ≤ b) : round2 a ≤ round2 b := by
  unfold round2
  have h1 : roundHalfEven (a * 100) ≤ roundHalfEven (b * 100) :=
    roundHalfEven_mono (by linarith)
  have h2 : ((roundHalfEven (a * 100) : ℚ)) ≤ (roundHalfEven (b * 100) : ℚ) := by
    exact_mod_cast h1
  linarith


/-- Claim C9: the composite score never decreases when a single sub-metric
increases with the others fixed: monotone in `coverage_rate` and each
completeness rate at the metrics level, and in the continuity and freshness
sub-scores (the 0-100 quantities the weighted sum consumes). -/
theorem composite_score_monotone :
    (∀ (m : QualityMetrics) (x : ℚ), m.coverage_rate ≤ x →
      calculate_quality_score m ≤ calculate_quality_score {m with coverage_rate := x}) ∧
    (∀ (m : QualityMetrics) (x : ℚ), m.close_completeness ≤ x →
      calculate_quality_score m ≤ calculate_quality_score {m with close_completeness := x}) ∧
    (∀ (m : QualityMetrics) (x : ℚ), m.vol_completeness ≤ x →
      calculate_quality_score m ≤ calculate_quality_score {m with vol_completeness := x}) ∧
    (∀ (m : QualityMetrics) (x : ℚ), m.amount_completeness ≤ x →
      calculate_quality_score m ≤ calculate_quality_score {m with amount_completeness := x}) ∧
    (∀ (cov cl vol amt c c' fr : ℚ), c ≤ c' →
      round2 (weightedTotal cov cl vol amt c fr) ≤ round2 (weightedTotal cov cl vol amt c' fr)) ∧
    (∀ (cov cl vol amt c fr fr' : ℚ), fr ≤ fr' →
      round2 (weightedTotal cov cl vol amt c fr) ≤ round2 (weightedTotal cov cl vol amt c fr')) := by
  refine ⟨?_, ?_, ?_, ?_, ?_, ?_⟩
  · intro m x hx
    apply round2_mono
    unfold weightedTotal coverage_score close_score vol_score amount_score continuity_score
      freshness_score
    dsimp only
    have hcov : min (m.coverage_rate * 100) 100 ≤ min (x * 100) 100 :=
      min_le_min (by nlinarith) le_rfl
    linarith
  · intro m x hx
    apply round2_mono
    unfold weightedTotal coverage_score close_score vol_score amount_score continuity_score
      freshness_score
    dsimp only
    linarith
  · intro m x hx
    apply round2_mono
    unfold weightedTotal coverage_score close_score vol_score amount_score continuity_score
      freshness_score
    dsimp only
    linarith
  · intro m x hx
    apply round2_mono
    unfold weightedTotal coverage_score close_score vol_score amount_score continuity_score
      freshness_score
    dsimp only
    linarith
  · intro cov cl vol amt c c' fr hc
    apply round2_mono
    unfold weightedTotal
    linarith
  · intro cov cl vol amt c fr fr' hf
    apply round2_mono
    unfold weightedTotal
    linarith

/-- Witness for C9: raising coverage from 50% to 90% does not lower the
composite score. -/
theorem composite_score_monotone_witness :
    calculate_quality_score ⟨1/2, 1, 1, 1, 0, 0⟩ ≤
      calculate_quality_score ⟨9/10, 1, 1, 1, 0, 0⟩ :=
  composite_score_monotone.1 ⟨1/2, 1, 1, 1, 0, 0⟩ (9/10) (by norm_num)


/-- One financial-disclosure row as the aligner consumes it: publish
timestamp (a day number) and the value of one tracked metric column (`none`
models NaN).  `align_financial_to_daily` runs the same independent
computation for each of its tracked columns (`roe_ttm`, `pb`), so the model
tracks a single column. -/
structure FinRow where
  pub : ℕ
  val : Option ℚ
deriving DecidableEq

/-- Comparison used to sort disclosures: ascending publish date. -/
abbrev pubLE (a b : FinRow) : Prop := a.pub ≤ b.pub

instance : DecidableRel pubLE := fun a b => Nat.decLe a.pub b.pub

instance : IsTotal FinRow pubLE := ⟨fun a b => Nat.le_total a.pub b.pub⟩

instance : IsTrans FinRow pubLE := ⟨fun _ _ _ => Nat.le_trans⟩

instance : IsAntisymm FinRow (fun a b => a.pub < b.pub) :=
  ⟨fun _ _ h1 h2 => absurd h2 (Nat.lt_asymm h1)⟩

/-- `fin.sort_values("pub_date")` (aligner.py, line 44): sort ascending by
publish date.  pandas' unstable default sort is modelled by insertion sort;
the alignment theorems assume pairwise-distinct publish dates (pandas
`reindex` raises on duplicate index labels), and there every sort agrees. -/
def sortByPub (fin : List FinRow) : List FinRow := fin.insertionSort pubLE

/-- The dataframe-level `.ffill()` applied after sorting (line 44): a row
with a missing value inherits the last non-null value of an earlier row;
`carry` is that last value. -/
def ffillRows (carry : Option ℚ) : List FinRow → List FinRow
  | [] => []
  | r :: rs => ⟨r.pub, r.val.orElse fun _ => carry⟩ :: ffillRows (r.val.orElse fun _ => carry) rs

/-- The carry left behind by `ffillRows`. -/
def ffillCarry (carry : Option ℚ) : List FinRow → Option ℚ
  | [] => carry
  | r :: rs => ffillCarry (r.val.orElse fun _ => carry) rs

/-- Value of `pd.Series(index=fin["pub_date"], data=fin[col].values)` at date
`d` after `reindex`: the entry published exactly at `d` (`none` both when no
entry was published at `d` and when the entry's value is NaN). -/
def seriesAt (s : List FinRow) (d : ℕ) : Option ℚ :=
  ((s.filter fun r => r.pub == d).getLast?).bind fun r => r.val

/-- `series.reindex(dates).ffill()` (line 52): walk the calendar; at each
date take the series value there when non-null, else the value in force. -/
def reindexFfill (s : List FinRow) (carry : Option ℚ) : List ℕ → List (Option ℚ)
  | [] => []
  | d :: ds =>
    ((seriesAt s d).orElse fun _ => carry) ::
      reindexFfill s ((seriesAt s d).orElse fun _ => carry) ds

/-- `.shift(1)` (line 52): every value moves one calendar position later and
the first position becomes null. -/
def shiftOne (xs : List (Option ℚ)) : List (Option ℚ) := (none :: xs).take xs.length

/-- Model of `align_financial_to_daily` (engine/aligner.py, lines 25-58) for
one tracked metric column: empty disclosure input yields an all-null column
over the calendar (lines 36-41); otherwise sort by publish date,
forward-fill across disclosures, reindex onto the calendar with forward
fill, and shift by one position (lines 44-52). -/
def align_financial_to_daily (fin : List FinRow) (dates : List ℕ) : List (Option ℚ) :=
  if fin.isEmpty then dates.map fun _ => none
  else shiftOne (reindexFfill (ffillRows none (sortByPub fin)) none dates)

/-- Forward-fill fold over an initial segment of the calendar: the value in
force after consuming `l`. -/
def ffold (s : List FinRow) (c : Option ℚ) (l : List ℕ) : Option ℚ :=
  l.foldl (fun carry d => (seriesAt s d).orElse fun _ => carry) c

theorem reindexFfill_length (s : List FinRow) (c : Option ℚ) (ds : List ℕ) :
    (reindexFfill s c ds).length = ds.length := by
  induction ds generalizing c with
  | nil => rfl
  | cons d ds ih => simp [reindexFfill, ih]

theorem reindexFfill_getElem? (s : List FinRow) (c : Option ℚ) (ds : List ℕ) (j : ℕ)
    (hj : j < ds.length) :
    (reindexFfill s c ds)[j]? = some (ffold s c (ds.take (j + 1))) := by
  induction ds generalizing c j with
  | nil => exact absurd hj (by simp)
  | cons d ds ih =>
    cases j with
    | zero => simp [reindexFfill, ffold]
    | succ j =>
      simp only [reindexFfill, List.getElem?_cons_succ, List.take_succ_cons, ffold,
        List.foldl_cons]
      exact ih _ j (by simpa using hj)

theorem ffold_congr (s1 s2 : List FinRow) (c : Option ℚ) (l : List ℕ)
    (h : ∀ d ∈ l, seriesAt s1 d = seriesAt s2 d) : ffold s1 c l = ffold s2 c l := by
  induction l generalizing c with
  | nil => rfl
  | cons d ds ih =>
    simp only [ffold, List.foldl_cons, h d (List.mem_cons_self d ds)]
    exact ih _ fun x hx => h x (List.mem_cons_of_mem d hx)


theorem ffillRows_map_pub (c : Option ℚ) (s : List FinRow) :
    (ffillRows c s).map FinRow.pub = s.map FinRow.pub := by
  induction s generalizing c with
  | nil => rfl
  | cons r rs ih => simp [ffillRows, ih]

theorem ffillRows_append (c : Option ℚ) (xs ys : List FinRow) :
    ffillRows c (xs ++ ys) = ffillRows c xs ++ ffillRows (ffillCarry c xs) ys := by
  induction xs generalizing c with
  | nil => rfl
  | cons r rs ih => simp [ffillRows, ffillCarry, ih]

theorem seriesAt_append_right_irrelevant (xs ys : List FinRow) (d : ℕ)
    (h : ∀ r ∈ ys, r.pub ≠ d) : seriesAt (xs ++ ys) d = seriesAt xs d := by
  unfold seriesAt
  rw [List.filter_append,
    show (ys.filter fun r => r.pub == d) = [] from
      List.filter_eq_nil_iff.mpr fun r hr => by simpa using h r hr,
    List.append_nil]

theorem sorted_pubLT (l : List FinRow) (hs : l.Sorted pubLE)
    (hn : (l.map FinRow.pub).Nodup) : l.Sorted fun a b => a.pub < b.pub :=
  (hs.and (List.pairwise_map.mp hn)).imp fun h => lt_of_le_of_ne h.1 h.2

theorem nodup_pub_of_perm {l1 l2 : List FinRow} (h : List.Perm l1 l2)
    (hn : (l2.map FinRow.pub).Nodup) : (l1.map FinRow.pub).Nodup :=
  ((h.map FinRow.pub).nodup_iff).mpr hn

theorem sortByPub_filter (fin : List FinRow) (p : FinRow → Bool)
    (hnodup : (fin.map FinRow.pub).Nodup) :
    sortByPub (fin.filter p) = (sortByPub fin).filter p := by
  have hperm : List.Perm (sortByPub (fin.filter p)) ((sortByPub fin).filter p) :=
    (List.perm_insertionSort pubLE (fin.filter p)).trans
      ((List.perm_insertionSort pubLE fin).symm.filter p)
  have hn1 : ((sortByPub (fin.filter p)).map FinRow.pub).Nodup :=
    nodup_pub_of_perm (List.perm_insertionSort pubLE (fin.filter p))
      (hnodup.sublist ((List.filter_sublist fin).map FinRow.pub))
  have hn2 : ((sortByPub fin).map FinRow.pub).Nodup :=
    nodup_pub_of_perm (List.perm_insertionSort pubLE fin) hnodup
  exact List.eq_of_perm_of_sorted hperm
    (sorted_pubLT _ (List.sorted_insertionSort pubLE (fin.filter p)) hn1)
    ((sorted_pubLT _ (List.sorted_insertionSort pubLE fin) hn2).filter p)

theorem dropWhile_lt_ge (D : ℕ) (S : List FinRow) (hs : S.Sorted pubLE) :
    ∀ x ∈ S.dropWhile fun r => decide (r.pub < D), D ≤ x.pub := by
  induction S with
  | nil => simp
  | cons a S ih =>
    obtain ⟨ha, hS⟩ := List.sorted_cons.mp hs
    by_cases h : a.pub < D
    · rw [List.dropWhile_cons_of_pos (by simpa using h)]
      exact ih hS
    · rw [List.dropWhile_cons_of_neg (by simpa using h)]
      intro x hx
      rcases List.mem_cons.mp hx with hx | hx
      · subst hx
        omega
      · exact le_trans (show D ≤ a.pub by omega) (ha x hx)

theorem filter_lt_eq_takeWhile (D : ℕ) (S : List FinRow) (hs : S.Sorted pubLE) :
    (S.filter fun r => decide (r.pub < D)) = S.takeWhile fun r => decide (r.pub < D) := by
  induction S with
  | nil => rfl
  | cons a S ih =>
    obtain ⟨ha, hS⟩ := List.sorted_cons.mp hs
    by_cases h : a.pub < D
    · rw [List.filter_cons_of_pos (by simpa using h),
        List.takeWhile_cons_of_pos (by simpa using h), ih hS]
    · rw [List.filter_cons_of_neg (by simpa using h),
        List.takeWhile_cons_of_neg (by simpa using h)]
      exact List.filter_eq_nil_iff.mpr fun x hx => by
        have := ha x hx
        simp only [decide_eq_true_eq]
        omega


theorem seriesAt_filter_lt (fin : List FinRow) (D d : ℕ)
    (hnodup : (fin.map FinRow.pub).Nodup) (hd : d < D) :
    seriesAt (ffillRows none (sortByPub (fin.filter fun r => decide (r.pub < D)))) d =
      seriesAt (ffillRows none (sortByPub fin)) d := by
  have hS : (sortByPub fin).Sorted pubLE := List.sorted_insertionSort pubLE fin
  have h1 : sortByPub (fin.filter fun r => decide (r.pub < D)) =
      (sortByPub fin).takeWhile fun r => decide (r.pub < D) := by
    rw [sortByPub_filter fin _ hnodup, filter_lt_eq_takeWhile D _ hS]
  rw [h1]
  conv_rhs =>
    rw [show sortByPub fin =
      ((sortByPub fin).takeWhile fun r => decide (r.pub < D)) ++
        ((sortByPub fin).dropWhile fun r => decide (r.pub < D)) from
      (List.takeWhile_append_dropWhile _ _).symm]
  rw [ffillRows_append]
  refine (seriesAt_append_right_irrelevant _ _ d fun r hr => ?_).symm
  have hpub : r.pub ∈ ((sortByPub fin).dropWhile fun r => decide (r.pub < D)).map FinRow.pub := by
    rw [← ffillRows_map_pub (ffillCarry none ((sortByPub fin).takeWhile fun r => decide (r.pub < D)))]
    exact List.mem_map_of_mem FinRow.pub hr
  obtain ⟨x, hx, hxe⟩ := List.mem_map.mp hpub
  have := dropWhile_lt_ge D (sortByPub fin) hS x hx
  omega

theorem ffold_nil_series (c : Option ℚ) (l : List ℕ) : ffold [] c l = c := by
  induction l generalizing c with
  | nil => rfl
  | cons d ds ih =>
    simp only [ffold, List.foldl_cons, seriesAt, List.filter_nil, List.getLast?_nil,
      Option.bind_none, Option.orElse_none]
    exact ih c

theorem align_getElem?_pos (fin : List FinRow) (dates : List ℕ) (hfin : ¬fin.isEmpty = true)
    (i : ℕ) (hi : i < dates.length) :
    (align_financial_to_daily fin dates)[i]? =
      if i = 0 then some none
      else some (ffold (ffillRows none (sortByPub fin)) none (dates.take i)) := by
  unfold align_financial_to_daily shiftOne
  rw [if_neg hfin]
  rw [List.getElem?_take]
  rw [if_pos (by rw [reindexFfill_length]; omega)]
  cases i with
  | zero => simp
  | succ j =>
    rw [List.getElem?_cons_succ, reindexFfill_getElem? _ _ _ j (by omega)]
    simp


theorem mem_take_lt_getElem (dates : List ℕ) (hs : dates.Pairwise (· < ·)) (i : ℕ)
    (hi : i < dates.length) (d : ℕ) (hd : d ∈ dates.take i) : d < dates[i] := by
  obtain ⟨n, hn, he⟩ := List.mem_iff_getElem.mp hd
  have hlen : n < i := by
    have := hn
    simp only [List.length_take] at this
    omega
  have hn2 : n < dates.length := by omega
  rw [List.getElem_take dates] at he
  subst he
  exact List.pairwise_iff_getElem.mp hs n i hn2 hi hlen

/-- Claim C2: no lookahead in alignment.  For every disclosure list with
distinct publish dates and every strictly increasing calendar, the aligned
value at calendar position `i` is unchanged when the disclosures are
restricted to those published strictly before `dates[i]` — so a value at
date `D` reflects only disclosures published strictly earlier than `D`.
Moreover a disclosure published on a calendar date is excluded there and
visible at the immediately following calendar date. -/
theorem align_no_lookahead :
    (∀ (fin : List FinRow) (dates : List ℕ),
      dates.Pairwise (· < ·) → (fin.map FinRow.pub).Nodup →
      ∀ (i : ℕ) (hi : i < dates.length),
      (align_financial_to_daily fin dates)[i]? =
        (align_financial_to_daily (fin.filter fun r => decide (r.pub < dates[i])) dates)[i]?) ∧
    (∀ (d1 d2 : ℕ) (v : ℚ), d1 < d2 →
      align_financial_to_daily [⟨d1, some v⟩] [d1, d2] = [none, some v]) := by
  constructor
  · intro fin dates hsorted hnodup i hi
    by_cases hfin : fin.isEmpty
    · rw [List.isEmpty_iff.mp hfin]
      rfl
    · by_cases hflt : (fin.filter fun r => decide (r.pub < dates[i])).isEmpty
      · rw [align_getElem?_pos fin dates hfin i hi]
        have hr : (align_financial_to_daily
            (fin.filter fun r => decide (r.pub < dates[i])) dates)[i]? = some none := by
          unfold align_financial_to_daily
          rw [if_pos hflt, List.getElem?_map, List.getElem?_eq_getElem hi]
          rfl
        rw [hr]
        cases i with
        | zero => rw [if_pos rfl]
        | succ j =>
          rw [if_neg (by omega)]
          have hseries : ∀ d ∈ dates.take (j + 1),
              seriesAt (ffillRows none (sortByPub fin)) d = seriesAt [] d := by
            intro d hdm
            have hdlt : d < dates[j + 1] := mem_take_lt_getElem dates hsorted (j + 1) hi d hdm
            rw [← seriesAt_filter_lt fin (dates[j + 1]) d hnodup hdlt,
              List.isEmpty_iff.mp hflt]
            rfl
          rw [ffold_congr _ [] none _ hseries, ffold_nil_series]
      · rw [align_getElem?_pos fin dates hfin i hi, align_getElem?_pos _ dates hflt i hi]
        cases i with
        | zero => rfl
        | succ j =>
          rw [if_neg (by omega), if_neg (by omega)]
          have hseries : ∀ d ∈ dates.take (j + 1),
              seriesAt (ffillRows none (sortByPub fin)) d =
                seriesAt (ffillRows none
                  (sortByPub (fin.filter fun r => decide (r.pub < dates[j + 1])))) d := by
            intro d hdm
            exact (seriesAt_filter_lt fin (dates[j + 1]) d hnodup
              (mem_take_lt_getElem dates hsorted (j + 1) hi d hdm)).symm
          rw [ffold_congr _ _ none _ hseries]
  · intro d1 d2 v h
    have hne : (d1 == d2) = false := by
      simp only [beq_eq_false_iff_ne, ne_eq]
      omega
    unfold align_financial_to_daily sortByPub
    rw [if_neg (by simp)]
    simp [List.insertionSort, List.orderedInsert, ffillRows, reindexFfill, seriesAt, shiftOne,
      hne, Option.orElse]


/-- Witness for C2: Scenario D — a disclosure published 2023-03-15 is
absent from the aligned value at 2023-03-15 and present at 2023-03-16. -/
theorem align_no_lookahead_witness :
    align_financial_to_daily [⟨daysFromCivil ⟨2023, 3, 15⟩, some 5⟩]
        [daysFromCivil ⟨2023, 3, 15⟩, daysFromCivil ⟨2023, 3, 16⟩] = [none, some 5] ∧
    (align_financial_to_daily [⟨daysFromCivil ⟨2023, 3, 15⟩, some 5⟩]
        [daysFromCivil ⟨2023, 3, 15⟩, daysFromCivil ⟨2023, 3, 16⟩])[0]? =
      (align_financial_to_daily ([(⟨daysFromCivil ⟨2023, 3, 15⟩, some 5⟩ : FinRow)].filter
          fun r => decide (r.pub < daysFromCivil ⟨2023, 3, 15⟩))
        [daysFromCivil ⟨2023, 3, 15⟩, daysFromCivil ⟨2023, 3, 16⟩])[0]? :=
  ⟨align_no_lookahead.2 (daysFromCivil ⟨2023, 3, 15⟩) (daysFromCivil ⟨2023, 3, 16⟩) 5
      (by decide),
   align_no_lookahead.1 [⟨daysFromCivil ⟨2023, 3, 15⟩, some 5⟩]
      [daysFromCivil ⟨2023, 3, 15⟩, daysFromCivil ⟨2023, 3, 16⟩]
      (by decide) (by decide) 0 (by decide)⟩

end BF
